import Mathlib

/-!
# typora-github-image-uploader: a shallow embedding of `main.go`

The program reads a configuration, fetches every command-line input (a local
file or an HTTP URL), base64-encodes it and PUTs it to the GitHub contents API.

Modelling conventions

* A Go `string` is a Lean `String`; a Go `[]byte` is a `List Byte` with
  `Byte = Fin 256`.
* A Go `error` is an `Option String` (`none` is `nil`, `some e` carries
  `err.Error()`); a Go `(string, error)` result is a pair.
* Everything outside the process (file system, network, clock) and the
  table-driven parts of the standard library (content sniffing, the MIME
  table, URL validation) is a field of `World`.  The driver calls the world
  with the position of the input it is working on, so that the same path may
  be answered differently at different moments of the run.
* `fmt.Print*` appends to `stdout`; `os.Exit` is recorded in `exit`.
-/

namespace GithubImageUploader

/-! ## `encoding/base64`, `StdEncoding` -/

/-- A Go `byte`. -/
abbrev Byte := Fin 256

/-- Go `byte(x)`: truncation of an unsigned integer to eight bits. -/
def toByte (n : Nat) : Byte := ⟨n % 256, Nat.mod_lt _ (by decide)⟩

/-- The alphabet `encodeStd` of `encoding/base64`. -/
def encodeStd : List Char :=
  "ABCDEFGHIJKLMNOPQRSTUVWXYZabcdefghijklmnopqrstuvwxyz0123456789+/".data

/-- The table `enc.encode[i]`; every use masks the index with `0x3F`. -/
def encChar (i : Nat) : Char := encodeStd.getD (i % 64) 'A'

/-- The table `enc.decodeMap[c]`: the position of `c` in the alphabet, `none` for Go's `0xFF`. -/
def decodeMap (c : Char) : Option Nat :=
  if encodeStd.indexOf c < 64 then some (encodeStd.indexOf c) else none

/-- The padding character `StdPadding`. -/
def padChar : Char := '='

/-- `(*Encoding).Encode` for `StdEncoding`: three bytes become four characters,
`val` being `src[0]<<16 | src[1]<<8 | src[2]`; a final block of one or two bytes is padded. -/
def Encode : List Byte → List Char
  | [] => []
  | [a] =>
    let val := a.val * 65536
    [encChar (val / 262144), encChar (val / 4096), padChar, padChar]
  | [a, b] =>
    let val := a.val * 65536 + b.val * 256
    [encChar (val / 262144), encChar (val / 4096), encChar (val / 64), padChar]
  | a :: b :: c :: rest =>
    let val := a.val * 65536 + b.val * 256 + c.val
    encChar (val / 262144) :: encChar (val / 4096) :: encChar (val / 64) :: encChar val
      :: Encode rest

/-- `base64.StdEncoding.EncodeToString`. -/
def EncodeToString (src : List Byte) : String := String.mk (Encode src)

/-- The outcome of `DecodeString`: the bytes decoded so far and the error. -/
structure Decoded where
  bytes : List Byte
  err : Option String
deriving DecidableEq, Repr

/-- The text of a `base64.CorruptInputError` (the offset is not modelled). -/
def corruptInput : String := "illegal base64 data"

/-- The characters the decoder skips. -/
def isNewline (c : Char) : Bool := c == '\n' || c == '\r'

/-- The loop `for si < len(src) && (src[si] == '\n' || src[si] == '\r') { si++ }`. -/
def skipNewlines : List Char → List Char
  | [] => []
  | c :: rest => if isNewline c then skipNewlines rest else c :: rest

/-- The tail of `decodeQuantum`: the `dlen` six-bit values collected in `dbuf`
(the missing ones are zero) are assembled into `val` and `dlen - 1` bytes are written. -/
def quantumBytes (q : List Nat) : List Byte :=
  let val := q.getD 0 0 * 262144 + q.getD 1 0 * 4096 + q.getD 2 0 * 64 + q.getD 3 0
  [toByte (val / 65536), toByte (val / 256), toByte val].take (q.length - 1)

/-- The end of a padded quantum: only newlines may follow the padding, anything
else is trailing garbage; the bytes of the quantum are delivered in both cases. -/
def finishPadded (q : List Nat) (rest : List Char) : Decoded :=
  ⟨quantumBytes q, if skipNewlines rest = [] then none else some corruptInput⟩

/-- `(*Encoding).Decode` for `StdEncoding` (padded, not strict), as a walk over
the input; `q` holds the six-bit values of the quantum being read (`j = q.length`). -/
def decodeLoop : List Char → List Nat → Decoded
  | [], q => if q.length = 0 then ⟨[], none⟩ else ⟨[], some corruptInput⟩
  | c :: rest, q =>
    match decodeMap c with
    | some v =>
      if q.length = 3 then
        let r := decodeLoop rest []
        ⟨quantumBytes (q ++ [v]) ++ r.bytes, r.err⟩
      else decodeLoop rest (q ++ [v])
    | none =>
      if isNewline c then decodeLoop rest q
      else if c ≠ padChar then ⟨[], some corruptInput⟩
      else if q.length < 2 then ⟨[], some corruptInput⟩
      else if q.length = 2 then
        match skipNewlines rest with
        | [] => ⟨[], some corruptInput⟩
        | d :: rest2 =>
          if d ≠ padChar then ⟨[], some corruptInput⟩ else finishPadded q rest2
      else finishPadded q rest

/-- `base64.StdEncoding.DecodeString`. -/
def DecodeString (s : String) : Decoded := decodeLoop s.data []

/-! ## `strings`, `path/filepath` -/

/-- `strings.Contains(s, substr)`: some suffix of `s` starts with `substr`. -/
def Contains (s substr : String) : Bool :=
  s.data.tails.any (fun t => substr.data.isPrefixOf t)

/-- `strings.Trim(s, cutset)`: drops the leading and trailing characters that are in `cutset`. -/
def Trim (s cutset : String) : String :=
  String.mk ((s.data.dropWhile (fun c => cutset.data.contains c)).rdropWhile
    (fun c => cutset.data.contains c))

/-- `strings.Join(elems, sep)`. -/
def Join : List String → String → String
  | [], _ => ""
  | [a], _ => a
  | a :: b :: rest, sep => a ++ sep ++ Join (b :: rest) sep

/-- `os.IsPathSeparator` on Unix. -/
def isPathSeparator (c : Char) : Bool := c == '/'

/-- `filepath.Base` on Unix: the last element of the path, after the trailing
slashes are removed; `.` for the empty path and `/` for a path of slashes only. -/
def Base (path : String) : String :=
  if path = "" then "."
  else
    let stripped := path.data.rdropWhile isPathSeparator
    let last := stripped.rtakeWhile (fun c => !isPathSeparator c)
    if last = [] then "/" else String.mk last

/-- `filepath.Ext`: the suffix of the last element that begins at its final dot, or `""`. -/
def Ext (path : String) : String :=
  let last := path.data.rtakeWhile (fun c => !isPathSeparator c)
  if last.contains '.' then String.mk ('.' :: last.rtakeWhile (fun c => c != '.')) else ""

/-! ## `time` -/

/-- The wall-clock reading `time.Now()` broken into its calendar fields. -/
structure Time where
  year : Nat
  month : Nat
  day : Nat
  hour : Nat
  minute : Nat
  second : Nat
deriving DecidableEq, Repr

/-- The function `appendInt` of package `time`, for a non-negative `x`: the decimal
digits of `x`, zero-padded on the left up to `width`. -/
def appendInt (x width : Nat) : List Char :=
  List.replicate (width - (Nat.toDigits 10 x).length) '0' ++ Nat.toDigits 10 x

/-- `t.Format("20060102150405")`: year (width 4), then month, day, hour, minute
and second (width 2 each). -/
def Time.Format (t : Time) : String :=
  String.mk (appendInt t.year 4 ++ appendInt t.month 2 ++ appendInt t.day 2 ++
    appendInt t.hour 2 ++ appendInt t.minute 2 ++ appendInt t.second 2)

/-- A calendar reading with a year of at most four digits. -/
def Time.civil (t : Time) : Prop :=
  t.year ≤ 9999 ∧ 1 ≤ t.month ∧ t.month ≤ 12 ∧ 1 ≤ t.day ∧ t.day ≤ 31 ∧
    t.hour ≤ 23 ∧ t.minute ≤ 59 ∧ t.second ≤ 59

instance (t : Time) : Decidable t.civil := by
  unfold Time.civil
  infer_instance

/-! ## `encoding/json`, decoding into `Response` -/

/-- A JSON document, as `encoding/json` scans it. -/
inductive Json where
  | null
  | bool (b : Bool)
  | number (text : String)
  | string (s : String)
  | array (items : List Json)
  | object (members : List (String × Json))

/-- The struct `Content`. -/
structure Content where
  DownloadUrl : String := ""
deriving DecidableEq, Repr

/-- The struct `Response`. -/
structure Response where
  Content : Content := {}
deriving DecidableEq, Repr

/-- The name of the kind of a JSON value, as an `UnmarshalTypeError` reports it. -/
def Json.kind : Json → String
  | .null => "null"
  | .bool _ => "bool"
  | .number _ => "number"
  | .string _ => "string"
  | .array _ => "array"
  | .object _ => "object"

/-- The text of an `UnmarshalTypeError`; `target` names the Go value or struct
field that could not take the JSON value.  The program never prints this text. -/
def unmarshalTypeError (v : Json) (target : String) : String :=
  "json: cannot unmarshal " ++ v.kind ++ " into Go " ++ target

/-- The decoder's `saveError`: only the first error is kept. -/
def saveError (saved : Option String) (e : String) : Option String :=
  match saved with
  | none => some e
  | some first => some first

/-- How `encoding/json` matches an object key to a struct field: the exact tag,
or the tag up to case.  The tags `content` and `download_url` have neither `k`
nor `s`, the only ASCII letters with a non-ASCII case variant, so folding the
ASCII letters decides the match. -/
def matchesField (key tag : String) : Bool :=
  key == tag || key.data.map Char.toUpper == tag.data.map Char.toUpper

/-- Decoding a JSON value into the `string` field `DownloadUrl`: a string is
stored, `null` leaves the field as it is, anything else is a type error. -/
def unmarshalDownloadUrl (v : Json) (cur : String) (saved : Option String) :
    String × Option String :=
  match v with
  | .null => (cur, saved)
  | .string s => (s, saved)
  | other => (cur, saveError saved (unmarshalTypeError other
    "struct field Content.content.download_url of type string"))

/-- Decoding a JSON value into the struct field `Content`: the members of an
object are visited in order, unknown keys are skipped; `null` is ignored. -/
def unmarshalContent (v : Json) (cur : Content) (saved : Option String) :
    Content × Option String :=
  match v with
  | .null => (cur, saved)
  | .object members =>
    members.foldl (fun acc kv =>
      if matchesField kv.1 "download_url" then
        ({ DownloadUrl := (unmarshalDownloadUrl kv.2 acc.1.DownloadUrl acc.2).1 },
          (unmarshalDownloadUrl kv.2 acc.1.DownloadUrl acc.2).2)
      else acc) (cur, saved)
  | other => (cur, saveError saved (unmarshalTypeError other
    "struct field Response.content of type main.Content"))

/-- `json.Unmarshal(all, t)` for `t : *Response`, on a syntactically valid
document: the decoded struct and the saved error. -/
def Unmarshal (v : Json) (t : Response) : Response × Option String :=
  match v with
  | .null => (t, none)
  | .object members =>
    members.foldl (fun acc kv =>
      if matchesField kv.1 "content" then
        ({ Content := (unmarshalContent kv.2 acc.1.Content acc.2).1 },
          (unmarshalContent kv.2 acc.1.Content acc.2).2)
      else acc) (t, none)
  | other => (t, some (unmarshalTypeError other "value of type main.Response"))

/-! ## The world outside the process -/

/-- What `http.Get` followed by `io.ReadAll(resp.Body)` can give. -/
inductive GetOutcome where
  | failed (e : String)
  | response (statusCode : Nat) (body : Except String (List Byte))

/-- What `os.Open`, `file.Stat` and `file.Read` can give: `size` is
`fileInfo.Size()`, the length of the buffer, and `data` the bytes the one
call of `file.Read` delivered (the buffer takes at most `size` of them). -/
inductive FileOutcome where
  | openFailed (e : String)
  | statFailed (e : String)
  | readFailed (size : Nat) (e : String)
  | read (size : Nat) (data : List Byte)

/-- The body of the response to the PUT, as `io.ReadAll` and the syntax check
of `json.Unmarshal` see it. -/
inductive Body where
  | readFailed (e : String)
  | malformed (e : String)
  | document (v : Json)

/-- What `client.Do` can give. -/
inductive DoOutcome where
  | failed (e : String)
  | response (statusCode : Nat) (body : Body)

/-- The request built by `upload`.  `url` is the URL the request carries, the
one `http.NewRequest` parsed from the string it was given; `values` is the map
that is marshalled into the body (`json.Marshal` writes the keys in sorted order). -/
structure Request where
  method : String
  url : String
  header : List (String × String)
  values : List (String × String)
  timeoutSeconds : Nat
deriving DecidableEq, Repr

/-- The environment of one run.  The first argument of `httpGet`, `openFile`,
`now` and `httpDo` is the position of the input being processed.
`newRequest` is what `http.NewRequest` makes of a URL string: the error of
`url.Parse`, or the URL the request will carry (with the path escaped and a
fragment split off), written as text. -/
structure World where
  httpGet : Nat → String → GetOutcome
  openFile : Nat → String → FileOutcome
  now : Nat → Time
  newRequest : String → Except String String
  httpDo : Nat → Request → DoOutcome
  detectContentType : List Byte → String
  extensionsByType : String → List String

/-- The struct `Config`. -/
structure Config where
  Repo : String
  Branch : String
  Token : String
  Path : String
deriving DecidableEq, Repr

/-! ## `main.go` -/

/-- The test `regexp.MustCompile("^https?://").MatchString(filePath)`. -/
def isURL (filePath : String) : Bool :=
  "http://".data.isPrefixOf filePath.data || "https://".data.isPrefixOf filePath.data

/-- The slice `fileBytes`: `make([]byte, size)` after `file.Read` stored the
delivered bytes at its front. -/
def fileBuffer (size : Nat) (data : List Byte) : List Byte :=
  data.take size ++ List.replicate (size - data.length) 0

/-- The function `getFile`. -/
def getFile (w : World) (i : Nat) (filePath : String) : String × Option String :=
  if isURL filePath then
    match w.httpGet i filePath with
    | .failed e => ("", some e)
    | .response statusCode body =>
      if statusCode ≠ 200 then ("", some ("download failed: " ++ filePath))
      else
        match body with
        | .error e => ("", some e)
        | .ok b => (EncodeToString b, none)
  else
    match w.openFile i filePath with
    | .openFailed e => ("", some e)
    | .statFailed e => ("", some e)
    | .readFailed _ e => ("", some e)
    | .read size data => (EncodeToString (fileBuffer size data), none)

/-- The string `apiUrl` of `upload`. -/
def apiUrl (config : Config) (filename : String) : String :=
  "https://api.github.com/repos/" ++ Trim config.Repo "/" ++ "/contents/" ++
    Trim config.Path "/" ++ "/" ++ filename

/-- The request `req` of `upload`, headers included; `url` is the URL that
`http.NewRequest` parsed from `apiUrl`. -/
def putRequest (config : Config) (url message fileBase64Content : String) : Request :=
  { method := "PUT"
    url := url
    header := [("Accept", "application/vnd.github+json"),
      ("Authorization", "Bearer " ++ config.Token),
      ("Content-Type", "application/json")]
    values := [("branch", config.Branch), ("content", fileBase64Content), ("message", message)]
    timeoutSeconds := 10 }

/-- The function `upload`; the global `config` is passed explicitly. -/
def upload (w : World) (config : Config) (i : Nat)
    (message filename fileBase64Content : String) : String × Option String :=
  match w.newRequest (apiUrl config filename) with
  | .error e => ("", some e)
  | .ok url =>
    match w.httpDo i (putRequest config url message fileBase64Content) with
    | .failed e => ("", some e)
    | .response statusCode body =>
      if statusCode ≠ 201 then ("", some ("ret code error: " ++ toString statusCode))
      else
        match body with
        | .readFailed e => ("", some e)
        | .malformed e => ("", some e)
        | .document v =>
          if (Unmarshal v {}).2 ≠ none then ("", (Unmarshal v {}).2)
          else ((Unmarshal v {}).1.Content.DownloadUrl, (Unmarshal v {}).2)

/-- The function `getExt`. -/
def getExt (w : World) (buffer : List Byte) : String :=
  if buffer.length > 0 then
    match w.extensionsByType (w.detectContentType buffer) with
    | [] => ""
    | first :: _ => first
  else ""

/-- The arguments of one call of `upload`. -/
structure UploadCall where
  message : String
  filename : String
  content : String
deriving DecidableEq, Repr

/-- What a run of `processUpload` leaves behind: the text printed, the status
passed to `os.Exit` (if it was called), the slice `retList`, and the
arguments of the calls of `getFile` and `upload`, in order. -/
structure Run where
  stdout : String := ""
  exit : Option Nat := none
  retList : List String := []
  fetched : List String := []
  uploaded : List UploadCall := []
deriving DecidableEq, Repr

/-- The verb `%v` applied to an `error`. -/
def fmtError : Option String → String
  | none => "<nil>"
  | some e => e

/-- The name under which the `i`-th input is uploaded: the base name, the
extension sniffed from the decoded content when the name has no dot, and
the time stamp in front. -/
def remoteName (w : World) (i : Nat) (img base64String : String) : String :=
  let filename := Base img
  let filename :=
    if !Contains filename "." then filename ++ getExt w (DecodeString base64String).bytes
    else filename
  (w.now i).Format ++ filename

/-- The body of the loop of `processUpload` for the `i`-th input `img`. -/
def loopBody (w : World) (config : Config) (i : Nat) (img : String) (st : Run) : Run :=
  let got := getFile w i img
  let base64String := got.1
  let err := got.2
  let st := { st with fetched := st.fetched ++ [img] }
  if err ≠ none then
    { st with stdout := st.stdout ++ ("Failed to get file: " ++ fmtError err) }
  else if base64String = "" then
    { st with stdout := st.stdout ++ ("base64String empty: " ++ img) }
  else
    let filename := remoteName w i img base64String
    let put := upload w config i "upload file" filename base64String
    let downloadUrl := put.1
    let err1 := put.2
    let st := { st with
      uploaded := st.uploaded ++ [UploadCall.mk "upload file" filename base64String] }
    if err1 ≠ none then
      { st with stdout := st.stdout ++ ("Failed to upload: " ++ fmtError err) }
    else
      { st with retList := st.retList ++ [downloadUrl] }

/-- The loop `for _, img := range imageList`, from position `i` on. -/
def loop (w : World) (config : Config) : Nat → List String → Run → Run
  | _, [], st => st
  | i, img :: rest, st => loop w config (i + 1) rest (loopBody w config i img st)

/-- The function `processUpload`. -/
def processUpload (w : World) (config : Config) (imageList : List String) : Run :=
  if imageList.length = 0 then
    { stdout := "no image url detected\n", exit := some 1 }
  else
    let st := loop w config 0 imageList {}
    if st.retList.length > 0 then
      { st with stdout := st.stdout ++ ("Upload Success:\n" ++ Join st.retList "\n") }
    else
      { st with stdout := st.stdout ++ "none upload success" }

/-! ## The behaviour the specification describes

These definitions follow the words of the specification; the theorems below
compare them with the loop of `processUpload`. -/

/-- The input at position `i` reaches the upload step: its fetch succeeds and
the base64 content is not empty. -/
def reachesUpload (w : World) (i : Nat) (img : String) : Bool :=
  decide ((getFile w i img).2 = none) && decide ((getFile w i img).1 ≠ "")

/-- The result of the upload of the input at position `i`. -/
def uploadOf (w : World) (config : Config) (i : Nat) (img : String) : String × Option String :=
  upload w config i "upload file" (remoteName w i img (getFile w i img).1) (getFile w i img).1

/-- The download URL an input contributes: the one its upload returns, when
it reaches the upload step and the upload succeeds; nothing otherwise. -/
def urlFor (w : World) (config : Config) (i : Nat) (img : String) : Option String :=
  if reachesUpload w i img = true ∧ (uploadOf w config i img).2 = none then
    some (uploadOf w config i img).1
  else none

/-- The download URLs of the inputs from position `i` on, in the order of the inputs. -/
def expectedUrlsFrom (w : World) (config : Config) (i : Nat) (imgs : List String) : List String :=
  (imgs.enumFrom i).filterMap (fun p => urlFor w config p.1 p.2)

/-- The download URLs of a whole run. -/
def expectedUrls (w : World) (config : Config) (imgs : List String) : List String :=
  expectedUrlsFrom w config 0 imgs

/-- The upload call an input gives rise to, when it reaches the upload step. -/
def callFor (w : World) (i : Nat) (img : String) : Option UploadCall :=
  if reachesUpload w i img = true then
    some (UploadCall.mk "upload file" (remoteName w i img (getFile w i img).1) (getFile w i img).1)
  else none

/-- The upload calls of the inputs from position `i` on. -/
def uploadCallsFrom (w : World) (i : Nat) (imgs : List String) : List UploadCall :=
  (imgs.enumFrom i).filterMap (fun p => callFor w p.1 p.2)

/-- The diagnostic printed for one input: nothing when it succeeds. -/
def diagnostic (w : World) (config : Config) (i : Nat) (img : String) : String :=
  match (getFile w i img).2 with
  | some e => "Failed to get file: " ++ e
  | none =>
    if (getFile w i img).1 = "" then "base64String empty: " ++ img
    else if (uploadOf w config i img).2 ≠ none then "Failed to upload: <nil>"
    else ""

/-- The diagnostics of the inputs from position `i` on, in the order they are printed. -/
def diagnosticsFrom (w : World) (config : Config) : Nat → List String → String
  | _, [] => ""
  | i, img :: rest => diagnostic w config i img ++ diagnosticsFrom w config (i + 1) rest

/-- The summary printed after the loop. -/
def summary (urls : List String) : String :=
  if urls ≠ [] then "Upload Success:\n" ++ Join urls "\n" else "none upload success"

/-- The bytes that `getFile` hands to the encoder, when the fetch succeeds:
the body of the response, or the buffer `fileBytes`. -/
def encodedBytes (w : World) (i : Nat) (filePath : String) : Option (List Byte) :=
  if isURL filePath then
    match w.httpGet i filePath with
    | .response 200 (.ok b) => some b
    | _ => none
  else
    match w.openFile i filePath with
    | .read size data => some (fileBuffer size data)
    | _ => none

/-- The bytes that were fetched, when the fetch succeeds: the body of the
response, or the bytes that `file.Read` delivered into the buffer. -/
def fetchedBytes (w : World) (i : Nat) (filePath : String) : Option (List Byte) :=
  if isURL filePath then
    match w.httpGet i filePath with
    | .response 200 (.ok b) => some b
    | _ => none
  else
    match w.openFile i filePath with
    | .read size data => some (data.take size)
    | _ => none

/-- The input was read in full: it is a URL, whose body `io.ReadAll` reads to
the end, or a local file whose read filled the buffer. -/
def readInFull (w : World) (i : Nat) (filePath : String) : Bool :=
  isURL filePath ||
    match w.openFile i filePath with
    | .read size data => decide (size ≤ data.length)
    | _ => true

/-- A JSON value that decodes into the field `DownloadUrl`: a string or `null`. -/
def urlShape : Json → Bool
  | .null => true
  | .string _ => true
  | _ => false

/-- A JSON value that decodes into the field `Content`: `null`, or an object
whose members named `download_url` are strings or `null`. -/
def contentShape : Json → Bool
  | .null => true
  | .object members =>
    members.all (fun kv => !matchesField kv.1 "download_url" || urlShape kv.2)
  | _ => false

/-- A JSON document that decodes into `Response`: `null`, or an object whose
members named `content` have the shape above. -/
def responseShape : Json → Bool
  | .null => true
  | .object members =>
    members.all (fun kv => !matchesField kv.1 "content" || contentShape kv.2)
  | _ => false

/-- The digits of `YYYYMMDDHHMMSS`. -/
def stampDigits (t : Time) : List Nat :=
  [t.year / 1000 % 10, t.year / 100 % 10, t.year / 10 % 10, t.year % 10,
    t.month / 10 % 10, t.month % 10, t.day / 10 % 10, t.day % 10,
    t.hour / 10 % 10, t.hour % 10, t.minute / 10 % 10, t.minute % 10,
    t.second / 10 % 10, t.second % 10]

/-- The time stamp `YYYYMMDDHHMMSS` as text. -/
def stamp14 (t : Time) : String := String.mk ((stampDigits t).map Nat.digitChar)

/-! ## A concrete world

One environment on which the statements below are evaluated: a clock stopped
on 5 April 2023, 06:07:08, two local files holding the PNG signature, an
empty file, a URL answered with 404, and a GitHub that accepts `shot.png`
and refuses everything else with status 500. -/

/-- The eight bytes of the PNG signature. -/
def pngSignature : List Byte := [137, 80, 78, 71, 13, 10, 26, 10]

/-- The configuration given as an example in the help text of the flag `-f`. -/
def demoConfig : Config :=
  { Repo := "owner/projectName", Branch := "main", Token := "access token", Path := "image/2023" }

/-- The URL of the contents API for a file name, under `demoConfig`. -/
def demoApiUrl (filename : String) : String :=
  "https://api.github.com/repos/owner/projectName/contents/image/2023/" ++ filename

/-- The download URL GitHub answers with in `demoWorld`. -/
def demoDownloadUrl : String :=
  "https://raw.githubusercontent.com/owner/projectName/main/image/2023/20230405060708shot.png"

/-- The environment described above. -/
def demoWorld : World where
  httpGet := fun _ url =>
    if url = "https://example.com/missing.png" then .response 404 (.ok [])
    else .failed "dial tcp: connection refused"
  openFile := fun _ path =>
    if path = "shot" then .read 8 pngSignature
    else if path = "pics/logo.png" then .read 8 pngSignature
    else if path = "empty.txt" then .read 0 []
    else .openFailed ("open " ++ path ++ ": no such file or directory")
  now := fun _ => { year := 2023, month := 4, day := 5, hour := 6, minute := 7, second := 8 }
  newRequest := fun rawurl => .ok rawurl
  httpDo := fun _ req =>
    if req.url =
        "https://api.github.com/repos/owner/projectName/contents/image/2023/20230405060708shot.png"
    then .response 201 (.document (.object [("content",
      .object [("name", .string "20230405060708shot.png"),
        ("download_url", .string demoDownloadUrl)])]))
    else .response 500 (.document (.object [("message", .string "Server Error")]))
  detectContentType := fun buffer =>
    if pngSignature.isPrefixOf buffer then "image/png" else "application/octet-stream"
  extensionsByType := fun t => if t = "image/png" then [".png"] else []

/-- Five inputs: a URL answered with 404, a PNG without extension, an empty
file, a PNG whose upload is refused, and a file that does not exist. -/
def demoInputs : List String :=
  ["https://example.com/missing.png", "shot", "empty.txt", "pics/logo.png", "nofile"]

/-- The world `demoWorld`, with a GitHub that accepts every PUT and answers
with a download URL made of the last element of the request URL. -/
def acceptWorld : World :=
  { demoWorld with
    httpDo := fun _ req =>
      .response 201 (.document (.object [("content",
        .object [("download_url", .string ("https://raw.example/" ++ Base req.url))])])) }

/-- The world `demoWorld`, with an `http.NewRequest` that rejects every URL string. -/
def rejectingWorld : World :=
  { demoWorld with newRequest := fun _ => .error "invalid URL escape" }

/-- The three bytes of the text `65` followed by a newline. -/
def noteBytes : List Byte := [54, 53, 10]

/-- A world with a short read: the file `note` is reported with a size of 8
bytes and the one call of `file.Read` delivers the 3 bytes of `noteBytes`
with no error; the URL `https://example.com/note` has these 3 bytes as its
body.  The sniffer takes data with a zero byte for binary and other data for
text; GitHub accepts every PUT. -/
def shortReadWorld : World :=
  { acceptWorld with
    httpGet := fun _ url =>
      if url = "https://example.com/note" then .response 200 (.ok noteBytes)
      else .failed "dial tcp: connection refused"
    openFile := fun _ path =>
      if path = "note" then .read 8 noteBytes
      else .openFailed ("open " ++ path ++ ": no such file or directory")
    detectContentType := fun buffer =>
      if buffer.contains 0 then "application/octet-stream" else "text/plain; charset=utf-8"
    extensionsByType := fun t =>
      if t = "text/plain; charset=utf-8" then [".txt"]
      else if t = "application/octet-stream" then [".bin"]
      else [] }

/-- A configuration whose repository ends, and whose directory begins, with a slash. -/
def slashConfig : Config :=
  { Repo := "owner/projectName/", Branch := "main", Token := "access token",
    Path := "/image/2023" }

/-- The world `demoWorld`, with a GitHub that answers every PUT with status
201 and the JSON document `[]`. -/
def arrayWorld : World :=
  { demoWorld with httpDo := fun _ _ => .response 201 (.document (.array [])) }

/-- The world `demoWorld`, with a GitHub that answers every PUT with status
201 and a JSON object without a `download_url`. -/
def bareWorld : World :=
  { demoWorld with
    httpDo := fun _ _ =>
      .response 201 (.document (.object [("content", .object [("name", .string "shot.png")])])) }

/-! ## The model on concrete inputs -/

theorem EncodeToString_examples :
    EncodeToString [77, 97, 110] = "TWFu" ∧ EncodeToString [77, 97] = "TWE=" ∧
      EncodeToString [77] = "TQ==" ∧ EncodeToString [] = "" ∧
      EncodeToString pngSignature = "iVBORw0KGgo=" := by
  decide

theorem DecodeString_examples :
    DecodeString "TWFu" = ⟨[77, 97, 110], none⟩ ∧ DecodeString "TQ==" = ⟨[77], none⟩ ∧
      DecodeString "TQ=\n=\n" = ⟨[77], none⟩ ∧
      DecodeString "TWFuTQ" = ⟨[77, 97, 110], some corruptInput⟩ ∧
      DecodeString "TQ==TWFu" = ⟨[77], some corruptInput⟩ ∧
      DecodeString "T=Fu" = ⟨[], some corruptInput⟩ := by
  decide

theorem Base_examples :
    Base "a/b/c.png" = "c.png" ∧ Base "a/b/" = "b" ∧ Base "///" = "/" ∧ Base "" = "." ∧
      Base "https://h.io/x/y.png?z=1" = "y.png?z=1" ∧ Ext "a.b/c" = "" ∧
      Ext "a/c.tar.gz" = ".gz" ∧ Trim "/owner/proj//" "/" = "owner/proj" ∧
      Contains "abc.d" "." = true ∧ Contains "abcd" "." = false ∧
      Join ["a", "b", "c"] "\n" = "a\nb\nc" ∧ isURL "https://x" = true ∧
      isURL "httpx://x" = false ∧ isURL "http://x" = true := by
  decide

theorem Format_examples :
    (Time.mk 2023 4 5 6 7 8).Format = "20230405060708" ∧
      (Time.mk 987 12 31 23 59 59).Format = "09871231235959" ∧
      (Time.mk 12023 4 5 6 7 8).Format = "120230405060708" := by
  decide

theorem Unmarshal_examples :
    Unmarshal (.object [("content", .object [("download_url", .string "u")])]) {} =
        ({ Content := { DownloadUrl := "u" } }, none) ∧
      Unmarshal (.object [("Content", .object [("DOWNLOAD_URL", .string "u")])]) {} =
        ({ Content := { DownloadUrl := "u" } }, none) ∧
      Unmarshal (.object [("content", .object [("download_url", .null)])]) {} = ({}, none) ∧
      Unmarshal .null {} = ({}, none) ∧ Unmarshal (.object []) {} = ({}, none) ∧
      (Unmarshal (.array []) {}).2 ≠ none ∧
      (Unmarshal (.object [("content", .number "5")]) {}).2 ≠ none ∧
      (Unmarshal (.object [("content", .object [("download_url", .number "5")])]) {}).2 ≠
        none := by
  decide

set_option maxRecDepth 4000 in
theorem processUpload_example :
    processUpload demoWorld demoConfig demoInputs =
      { stdout := "Failed to get file: download failed: https://example.com/missing.png" ++
          "base64String empty: empty.txt" ++ "Failed to upload: <nil>" ++
          "Failed to get file: open nofile: no such file or directory" ++
          "Upload Success:\n" ++ demoDownloadUrl
        exit := none
        retList := [demoDownloadUrl]
        fetched := demoInputs
        uploaded := [UploadCall.mk "upload file" "20230405060708shot.png" "iVBORw0KGgo=",
          UploadCall.mk "upload file" "20230405060708logo.png" "iVBORw0KGgo="] } := by
  decide

/-! ## Round trip of the base64 codec -/

theorem decodeMap_encodeStd : ∀ j : Fin 64, decodeMap (encodeStd.getD j.val 'A') = some j.val := by
  decide

theorem decodeMap_encChar (i : Nat) : decodeMap (encChar i) = some (i % 64) :=
  decodeMap_encodeStd ⟨i % 64, Nat.mod_lt _ (by decide)⟩

theorem decodeMap_padChar : decodeMap padChar = none := by decide

theorem quantumBytes_three (a b c : Byte) :
    quantumBytes [(a.val * 65536 + b.val * 256 + c.val) / 262144 % 64,
      (a.val * 65536 + b.val * 256 + c.val) / 4096 % 64,
      (a.val * 65536 + b.val * 256 + c.val) / 64 % 64,
      (a.val * 65536 + b.val * 256 + c.val) % 64] = [a, b, c] := by
  have ha := a.isLt
  have hb := b.isLt
  have hc := c.isLt
  simp only [quantumBytes, List.getD_cons_zero, List.getD_cons_succ, List.length_cons,
    List.length_nil, toByte]
  simp only [List.take, List.cons.injEq, and_true]
  refine ⟨Fin.ext ?_, Fin.ext ?_, Fin.ext ?_⟩ <;> simp only <;> omega

theorem quantumBytes_two (a b : Byte) :
    quantumBytes [(a.val * 65536 + b.val * 256) / 262144 % 64,
      (a.val * 65536 + b.val * 256) / 4096 % 64,
      (a.val * 65536 + b.val * 256) / 64 % 64] = [a, b] := by
  have ha := a.isLt
  have hb := b.isLt
  simp only [quantumBytes, List.getD_cons_zero, List.getD_cons_succ, List.length_cons,
    List.length_nil, toByte, List.getD_nil]
  simp only [List.take, List.cons.injEq, and_true]
  refine ⟨Fin.ext ?_, Fin.ext ?_⟩ <;> simp only <;> omega

theorem quantumBytes_one (a : Byte) :
    quantumBytes [(a.val * 65536) / 262144 % 64, (a.val * 65536) / 4096 % 64] = [a] := by
  have ha := a.isLt
  simp only [quantumBytes, List.getD_cons_zero, List.getD_cons_succ, List.length_cons,
    List.length_nil, toByte, List.getD_nil]
  simp only [List.take, List.cons.injEq, and_true]
  refine Fin.ext ?_
  simp only
  omega

theorem decodeLoop_pad_pad (s0 s1 : Nat) :
    decodeLoop [encChar s0, encChar s1, padChar, padChar] [] =
      ⟨quantumBytes [s0 % 64, s1 % 64], none⟩ := by
  have hp : decodeMap '=' = none := decodeMap_padChar
  simp [decodeLoop, decodeMap_encChar, padChar, hp, isNewline, skipNewlines, finishPadded]

theorem decodeLoop_pad (s0 s1 s2 : Nat) :
    decodeLoop [encChar s0, encChar s1, encChar s2, padChar] [] =
      ⟨quantumBytes [s0 % 64, s1 % 64, s2 % 64], none⟩ := by
  have hp : decodeMap '=' = none := decodeMap_padChar
  simp [decodeLoop, decodeMap_encChar, padChar, hp, isNewline, skipNewlines, finishPadded]

theorem decodeLoop_full (s0 s1 s2 s3 : Nat) (rest : List Char) :
    decodeLoop (encChar s0 :: encChar s1 :: encChar s2 :: encChar s3 :: rest) [] =
      ⟨quantumBytes [s0 % 64, s1 % 64, s2 % 64, s3 % 64] ++ (decodeLoop rest []).bytes,
        (decodeLoop rest []).err⟩ := by
  simp [decodeLoop, decodeMap_encChar]

/-- Decoding what `Encode` produced gives the bytes back, with no error. -/
theorem decodeLoop_Encode (src : List Byte) : decodeLoop (Encode src) [] = ⟨src, none⟩ := by
  induction src using Encode.induct with
  | case1 => simp [Encode, decodeLoop]
  | case2 a =>
    simp only [Encode]
    rw [decodeLoop_pad_pad, quantumBytes_one]
  | case3 a b =>
    simp only [Encode]
    rw [decodeLoop_pad, quantumBytes_two]
  | case4 a b c rest ih =>
    simp only [Encode]
    rw [decodeLoop_full, ih, quantumBytes_three]
    rfl

/-! ## The loop of `processUpload` -/

theorem loopBody_eq (w : World) (config : Config) (i : Nat) (img : String) (st : Run) :
    loopBody w config i img st =
      { stdout := st.stdout ++ diagnostic w config i img
        exit := st.exit
        retList := st.retList ++ (urlFor w config i img).toList
        fetched := st.fetched ++ [img]
        uploaded := st.uploaded ++ (callFor w i img).toList } := by
  unfold loopBody diagnostic urlFor callFor reachesUpload uploadOf
  cases hget : (getFile w i img).2 with
  | some e => simp [hget, fmtError]
  | none =>
    by_cases hempty : (getFile w i img).1 = ""
    · simp [hget, hempty]
    · by_cases hup : (upload w config i "upload file"
          (remoteName w i img (getFile w i img).1) (getFile w i img).1).2 = none
      · simp [hget, hempty, hup]
      · simp [hget, hempty, hup, fmtError]

theorem loop_eq (w : World) (config : Config) (imgs : List String) :
    ∀ (i : Nat) (st : Run), loop w config i imgs st =
      { stdout := st.stdout ++ diagnosticsFrom w config i imgs
        exit := st.exit
        retList := st.retList ++ expectedUrlsFrom w config i imgs
        fetched := st.fetched ++ imgs
        uploaded := st.uploaded ++ uploadCallsFrom w i imgs } := by
  induction imgs with
  | nil =>
    intro i st
    simp [loop, diagnosticsFrom, expectedUrlsFrom, uploadCallsFrom]
  | cons img rest ih =>
    intro i st
    rw [loop, ih, loopBody_eq]
    simp only [diagnosticsFrom, expectedUrlsFrom, uploadCallsFrom, List.enumFrom_cons,
      List.filterMap_cons, String.append_assoc, List.append_assoc, List.singleton_append]
    cases urlFor w config i img <;> cases callFor w i img <;> simp

theorem processUpload_eq (w : World) (config : Config) (imgs : List String) (h : imgs ≠ []) :
    processUpload w config imgs =
      { stdout := diagnosticsFrom w config 0 imgs ++ summary (expectedUrls w config imgs)
        exit := none
        retList := expectedUrls w config imgs
        fetched := imgs
        uploaded := uploadCallsFrom w 0 imgs } := by
  have hlen : imgs.length ≠ 0 := by
    intro h0
    exact h (List.length_eq_zero.mp h0)
  unfold processUpload
  rw [if_neg hlen, loop_eq]
  simp only [summary, expectedUrls, List.nil_append, String.empty_append]
  by_cases hurls : expectedUrlsFrom w config 0 imgs = []
  · simp [hurls]
  · have hpos : 0 < (expectedUrlsFrom w config 0 imgs).length := List.length_pos.mpr hurls
    simp [hurls, hpos]

/-! ## Time stamps -/

theorem digitChar_zero : Nat.digitChar 0 = '0' := rfl

theorem toDigitsCore_step (fuel n : Nat) (acc : List Char) :
    Nat.toDigitsCore 10 (fuel + 1) n acc =
      if n / 10 = 0 then Nat.digitChar (n % 10) :: acc
      else Nat.toDigitsCore 10 fuel (n / 10) (Nat.digitChar (n % 10) :: acc) := by
  simp [Nat.toDigitsCore]

theorem toDigits_small (x : Nat) (h : x < 10000) :
    Nat.toDigits 10 x =
      if x < 10 then [Nat.digitChar (x % 10)]
      else if x < 100 then [Nat.digitChar (x / 10 % 10), Nat.digitChar (x % 10)]
      else if x < 1000 then
        [Nat.digitChar (x / 100 % 10), Nat.digitChar (x / 10 % 10), Nat.digitChar (x % 10)]
      else [Nat.digitChar (x / 1000 % 10), Nat.digitChar (x / 100 % 10),
        Nat.digitChar (x / 10 % 10), Nat.digitChar (x % 10)] := by
  unfold Nat.toDigits
  by_cases h1 : x < 10
  · rw [toDigitsCore_step, if_pos (by omega), if_pos h1]
  · rw [if_neg h1]
    obtain ⟨k, rfl⟩ : ∃ k, x = k + 10 := ⟨x - 10, by omega⟩
    by_cases h2 : k + 10 < 100
    · rw [if_pos h2, toDigitsCore_step, if_neg (by omega),
        show k + 10 = (k + 9) + 1 from rfl, toDigitsCore_step, if_pos (by omega)]
    · rw [if_neg h2]
      by_cases h3 : k + 10 < 1000
      · rw [if_pos h3, toDigitsCore_step, if_neg (by omega),
          show k + 10 = (k + 9) + 1 from rfl, toDigitsCore_step, if_neg (by omega),
          show k + 9 = (k + 8) + 1 from rfl, toDigitsCore_step, if_pos (by omega)]
        have e1 : (k + 8 + 1 + 1) / 10 / 10 % 10 = (k + 8 + 1 + 1) / 100 % 10 := by omega
        rw [e1]
      · rw [if_neg h3, toDigitsCore_step, if_neg (by omega),
          show k + 10 = (k + 9) + 1 from rfl, toDigitsCore_step, if_neg (by omega),
          show k + 9 = (k + 8) + 1 from rfl, toDigitsCore_step, if_neg (by omega),
          show k + 8 = (k + 7) + 1 from rfl, toDigitsCore_step, if_pos (by omega)]
        have e1 : (k + 7 + 1 + 1 + 1) / 10 / 10 % 10 = (k + 7 + 1 + 1 + 1) / 100 % 10 := by omega
        have e2 : (k + 7 + 1 + 1 + 1) / 10 / 10 / 10 % 10 = (k + 7 + 1 + 1 + 1) / 1000 % 10 := by
          omega
        rw [e1, e2]

theorem appendInt_two (x : Nat) (h : x < 100) :
    appendInt x 2 = [Nat.digitChar (x / 10 % 10), Nat.digitChar (x % 10)] := by
  unfold appendInt
  rw [toDigits_small x (by omega)]
  by_cases h1 : x < 10
  · have e : x / 10 % 10 = 0 := by omega
    simp [h1, e, List.replicate, digitChar_zero]
  · simp [h1, h]

theorem appendInt_four (x : Nat) (h : x < 10000) :
    appendInt x 4 = [Nat.digitChar (x / 1000 % 10), Nat.digitChar (x / 100 % 10),
      Nat.digitChar (x / 10 % 10), Nat.digitChar (x % 10)] := by
  unfold appendInt
  rw [toDigits_small x h]
  by_cases h1 : x < 10
  · have e1 : x / 10 % 10 = 0 := by omega
    have e2 : x / 100 % 10 = 0 := by omega
    have e3 : x / 1000 % 10 = 0 := by omega
    simp [h1, e1, e2, e3, List.replicate, digitChar_zero]
  · by_cases h2 : x < 100
    · have e2 : x / 100 % 10 = 0 := by omega
      have e3 : x / 1000 % 10 = 0 := by omega
      simp [h1, h2, e2, e3, List.replicate, digitChar_zero]
    · by_cases h3 : x < 1000
      · have e3 : x / 1000 % 10 = 0 := by omega
        simp [h1, h2, h3, e3, List.replicate, digitChar_zero]
      · simp [h1, h2, h3]

theorem digitChar_isDigit (d : Nat) (h : d < 10) : (Nat.digitChar d).isDigit = true := by
  interval_cases d <;> decide

/-- With a year of at most four digits, the layout `20060102150405` prints `YYYYMMDDHHMMSS`. -/
theorem Format_eq_stamp14 (t : Time) (h : t.civil) : t.Format = stamp14 t := by
  obtain ⟨hy, _, hm, _, hd, hh, hmi, hs⟩ := h
  unfold Time.Format stamp14 stampDigits
  rw [appendInt_four t.year (by omega), appendInt_two t.month (by omega),
    appendInt_two t.day (by omega), appendInt_two t.hour (by omega),
    appendInt_two t.minute (by omega), appendInt_two t.second (by omega)]
  rfl

theorem stamp14_length (t : Time) : (stamp14 t).length = 14 := by
  simp [stamp14, stampDigits, String.length]

theorem stamp14_digits (t : Time) : ∀ c ∈ (stamp14 t).data, c.isDigit = true := by
  intro c hc
  simp only [stamp14, stampDigits, List.map_cons, List.map_nil, List.mem_cons,
    List.mem_singleton, List.not_mem_nil, or_false] at hc
  rcases hc with h | h | h | h | h | h | h | h | h | h | h | h | h | h <;>
    (rw [h]; exact digitChar_isDigit _ (Nat.mod_lt _ (by decide)))

/-! ## Names and paths -/

theorem tails_any_dot (l : List Char) :
    (l.tails.any fun t => ['.'].isPrefixOf t) = l.contains '.' := by
  induction l with
  | nil => rfl
  | cons c rest ih =>
    rw [List.tails, List.any_cons, ih, List.contains_cons]
    simp [List.isPrefixOf]

/-- The test of `processUpload`, `strings.Contains(filename, ".")`, looks for a dot. -/
theorem Contains_dot (s : String) : Contains s "." = s.data.contains '.' :=
  tails_any_dot s.data

/-- A base name has no separator, unless it is the root `/`. -/
theorem Base_separator (path : String) :
    (∀ c ∈ (Base path).data, isPathSeparator c = false) ∨ Base path = "/" := by
  unfold Base
  by_cases h : path = ""
  · left
    rw [if_pos h]
    decide
  · rw [if_neg h]
    by_cases hl : (List.rtakeWhile (fun c => !isPathSeparator c)
        (List.rdropWhile isPathSeparator path.data)) = []
    · right
      simp [hl]
    · left
      simp only [hl, if_false]
      intro c hc
      have := List.mem_rtakeWhile_imp hc
      simpa using this

/-- A base name has an extension, in the sense of `filepath.Ext`, exactly when it has a dot. -/
theorem Ext_Base (path : String) : Ext (Base path) = "" ↔ Contains (Base path) "." = false := by
  rw [Contains_dot]
  rcases Base_separator path with h | h
  · have hself : List.rtakeWhile (fun c => !isPathSeparator c) (Base path).data =
        (Base path).data := by
      rw [List.rtakeWhile_eq_self_iff]
      intro c hc
      simp [h c hc]
    unfold Ext
    simp only [hself]
    by_cases hd : (Base path).data.contains '.' = true
    · rw [if_pos hd]
      constructor
      · intro hmk
        exact absurd (congrArg String.data hmk) (List.cons_ne_nil _ _)
      · intro hf
        rw [hd] at hf
        cases hf
    · rw [if_neg hd]
      constructor
      · intro _
        exact Bool.not_eq_true _ ▸ hd
      · intro _
        rfl
  · rw [h]
    decide

theorem rdropWhile_append_rtakeWhile {α : Type} (p : α → Bool) (l : List α) :
    l.rdropWhile p ++ l.rtakeWhile p = l := by
  unfold List.rdropWhile List.rtakeWhile
  rw [← List.reverse_append, List.takeWhile_append_dropWhile, List.reverse_reverse]

theorem slash_cutset : (fun c : Char => ("/".data.contains c)) = (fun c : Char => c == '/') := by
  funext c
  show (['/'].contains c) = (c == '/')
  by_cases hc : c = '/' <;> simp [List.contains_cons, hc]

/-- What `Trim s "/"` is: `s` without the slashes at its two ends. -/
theorem Trim_slash_spec (s : String) :
    ∃ pre post : List Char, s.data = pre ++ (Trim s "/").data ++ post ∧
      (∀ c ∈ pre, c = '/') ∧ (∀ c ∈ post, c = '/') ∧
      (Trim s "/").data.head? ≠ some '/' ∧ (Trim s "/").data.getLast? ≠ some '/' := by
  unfold Trim
  rw [slash_cutset]
  refine ⟨s.data.takeWhile (fun c => c == '/'),
    (s.data.dropWhile (fun c => c == '/')).rtakeWhile (fun c => c == '/'), ?_, ?_, ?_, ?_, ?_⟩
  · show s.data = _ ++ List.rdropWhile _ _ ++ _
    rw [List.append_assoc, rdropWhile_append_rtakeWhile, List.takeWhile_append_dropWhile]
  · intro c hc
    simpa using List.mem_takeWhile_imp hc
  · intro c hc
    simpa using List.mem_rtakeWhile_imp hc
  · show List.head? (List.rdropWhile _ _) ≠ _
    intro hhead
    have hpre : List.rdropWhile (fun c => c == '/') (s.data.dropWhile (fun c => c == '/')) <+:
        s.data.dropWhile (fun c => c == '/') := List.rdropWhile_prefix _ _
    obtain ⟨r, hr⟩ := hpre
    have hnot := List.head?_dropWhile_not (fun c => c == '/') s.data
    rw [← hr] at hnot
    cases ht : List.rdropWhile (fun c => c == '/') (s.data.dropWhile (fun c => c == '/')) with
    | nil => rw [ht] at hhead; simp at hhead
    | cons a rest =>
      rw [ht] at hhead hnot
      simp at hhead hnot
      exact hnot hhead
  · show List.getLast? (List.rdropWhile _ _) ≠ _
    intro hlast
    by_cases hnil : List.rdropWhile (fun c => c == '/') (s.data.dropWhile (fun c => c == '/')) = []
    · rw [hnil] at hlast
      simp at hlast
    · have := List.rdropWhile_last_not (fun c => c == '/') _ hnil
      rw [List.getLast?_eq_getLast _ hnil] at hlast
      apply this
      simpa using (Option.some.inj hlast)

theorem Trim_slash_self (s : String) (hfirst : s.data.head? ≠ some '/')
    (hlast : s.data.getLast? ≠ some '/') : Trim s "/" = s := by
  unfold Trim
  have hp : (fun c : Char => ("/".data.contains c)) = (fun c : Char => c == '/') := by
    funext c
    show (['/'].contains c) = (c == '/')
    by_cases hc : c = '/' <;> simp [List.contains_cons, hc]
  rw [hp]
  have h1 : List.dropWhile (fun c : Char => c == '/') s.data = s.data := by
    rw [List.dropWhile_eq_self_iff]
    intro hl hc
    apply hfirst
    cases hd : s.data with
    | nil => simp [hd] at hl
    | cons a rest =>
      simp only [hd, List.get_eq_getElem, List.getElem_cons_zero, beq_iff_eq] at hc
      simp [hc]
  have h2 : List.rdropWhile (fun c : Char => c == '/') s.data = s.data := by
    rw [List.rdropWhile_eq_self_iff]
    intro hl hc
    apply hlast
    rw [List.getLast?_eq_getLast _ hl]
    simp only [beq_iff_eq] at hc
    rw [hc]
  rw [h1, h2]

/-! ## One input -/

/-- What `Join` is: the elements with the separator between each two of them. -/
theorem Join_data : ∀ (l : List String) (sep : String),
    (Join l sep).data = List.intercalate sep.data (l.map String.data)
  | [], _ => rfl
  | [a], _ => by simp [Join, List.intercalate]
  | a :: b :: rest, sep => by
    rw [Join, String.data_append, String.data_append, Join_data (b :: rest) sep]
    simp [List.intercalate, List.intersperse]

theorem urlFor_of_fetch_error (w : World) (config : Config) (i : Nat) (img e : String)
    (h : (getFile w i img).2 = some e) :
    urlFor w config i img = none ∧ callFor w i img = none ∧
      diagnostic w config i img = "Failed to get file: " ++ e := by
  unfold urlFor callFor diagnostic reachesUpload
  simp [h]

theorem diagnostic_of_urlFor (w : World) (config : Config) (i : Nat) (img u : String)
    (h : urlFor w config i img = some u) : diagnostic w config i img = "" := by
  unfold urlFor reachesUpload at h
  unfold diagnostic
  by_cases h1 : (getFile w i img).2 = none
  · by_cases h2 : (getFile w i img).1 = ""
    · simp [h1, h2] at h
    · by_cases h3 : (uploadOf w config i img).2 = none
      · simp [h1, h2, h3]
      · simp [h1, h2, h3] at h
  · simp [h1] at h

theorem getFile_bad_status (w : World) (i : Nat) (url : String) (statusCode : Nat)
    (body : Except String (List Byte)) (hurl : isURL url = true)
    (hget : w.httpGet i url = .response statusCode body) (hs : statusCode ≠ 200) :
    getFile w i url = ("", some ("download failed: " ++ url)) := by
  unfold getFile
  rw [if_pos hurl, hget]
  simp [hs]

theorem upload_bad_status (w : World) (config : Config) (i : Nat)
    (message filename content url : String) (statusCode : Nat) (body : Body)
    (hreq : w.newRequest (apiUrl config filename) = .ok url)
    (hdo : w.httpDo i (putRequest config url message content) = .response statusCode body)
    (hs : statusCode ≠ 201) :
    upload w config i message filename content =
      ("", some ("ret code error: " ++ toString statusCode)) := by
  unfold upload
  rw [hreq]
  simp only [hdo]
  simp [hs]

theorem reachesUpload_iff (w : World) (i : Nat) (img : String) :
    reachesUpload w i img = true ↔ (getFile w i img).2 = none ∧ (getFile w i img).1 ≠ "" := by
  unfold reachesUpload
  simp

theorem loopBody_upload_failed (w : World) (config : Config) (i : Nat) (img : String) (st : Run)
    (hget : (getFile w i img).2 = none) (hne : (getFile w i img).1 ≠ "")
    (hfail : (upload w config i "upload file" (remoteName w i img (getFile w i img).1)
      (getFile w i img).1).2 ≠ none) :
    loopBody w config i img st =
      { stdout := st.stdout ++ "Failed to upload: <nil>"
        exit := st.exit
        retList := st.retList
        fetched := st.fetched ++ [img]
        uploaded := st.uploaded ++ [UploadCall.mk "upload file"
          (remoteName w i img (getFile w i img).1) (getFile w i img).1] } := by
  unfold loopBody
  simp [hget, hne, hfail, fmtError]

theorem loopBody_upload_ok (w : World) (config : Config) (i : Nat) (img : String) (st : Run)
    (hget : (getFile w i img).2 = none) (hne : (getFile w i img).1 ≠ "")
    (hok : (upload w config i "upload file" (remoteName w i img (getFile w i img).1)
      (getFile w i img).1).2 = none) :
    loopBody w config i img st =
      { stdout := st.stdout
        exit := st.exit
        retList := st.retList ++ [(upload w config i "upload file"
          (remoteName w i img (getFile w i img).1) (getFile w i img).1).1]
        fetched := st.fetched ++ [img]
        uploaded := st.uploaded ++ [UploadCall.mk "upload file"
          (remoteName w i img (getFile w i img).1) (getFile w i img).1] } := by
  unfold loopBody
  simp [hget, hne, hok]

theorem remoteName_eq (w : World) (i : Nat) (img s : String) :
    remoteName w i img s = (w.now i).Format ++
      (Base img ++ if Ext (Base img) = "" then getExt w (DecodeString s).bytes else "") := by
  unfold remoteName
  by_cases h : Contains (Base img) "." = true
  · have hext : ¬ Ext (Base img) = "" := by
      rw [Ext_Base]
      simp [h]
    simp [h, hext]
  · have hext : Ext (Base img) = "" := by
      rw [Ext_Base]
      simpa using h
    simp [h, hext]

theorem mem_uploaded (w : World) (config : Config) (imgs : List String) (i : Nat)
    (img : String) (call : UploadCall) (hin : imgs[i]? = some img)
    (hcall : callFor w i img = some call) : call ∈ (processUpload w config imgs).uploaded := by
  have hne : imgs ≠ [] := by
    intro h
    rw [h] at hin
    simp at hin
  rw [processUpload_eq w config imgs hne]
  show call ∈ uploadCallsFrom w 0 imgs
  unfold uploadCallsFrom
  rw [List.mem_filterMap]
  exact ⟨(i, img), List.mk_mem_enum_iff_getElem?.mpr hin, hcall⟩

theorem Encode_length (b : List Byte) : (Encode b).length = 4 * ((b.length + 2) / 3) := by
  induction b using Encode.induct with
  | case1 => rfl
  | case2 a => simp [Encode]
  | case3 a b => simp [Encode]
  | case4 a b c rest ih =>
    simp only [Encode, List.length_cons, ih]
    omega

/-- The round trip of the codec on strings. -/
theorem DecodeString_EncodeToString (b : List Byte) :
    DecodeString (EncodeToString b) = ⟨b, none⟩ :=
  decodeLoop_Encode b

/-- A successful `getFile` returns the encoding of the bytes it fetched. -/
theorem encodedBytes_of_getFile (w : World) (i : Nat) (img : String)
    (h : (getFile w i img).2 = none) :
    ∃ b, encodedBytes w i img = some b ∧ getFile w i img = (EncodeToString b, none) := by
  unfold getFile at h ⊢
  unfold encodedBytes
  by_cases hurl : isURL img = true
  · simp only [hurl, if_true] at h ⊢
    cases hget : w.httpGet i img with
    | failed e => simp [hget] at h
    | response statusCode body =>
      by_cases hs : statusCode = 200
      · subst hs
        cases body with
        | error e => simp [hget] at h
        | ok b => exact ⟨b, rfl, by simp⟩
      · simp [hget, hs] at h
  · simp only [hurl] at h ⊢
    cases hopen : w.openFile i img with
    | openFailed e => simp [hopen] at h
    | statFailed e => simp [hopen] at h
    | readFailed size e => simp [hopen] at h
    | read size data => exact ⟨fileBuffer size data, rfl, by simp⟩

theorem encodedBytes_of_reachesUpload (w : World) (i : Nat) (img : String)
    (h : reachesUpload w i img = true) :
    ∃ b, encodedBytes w i img = some b ∧ b ≠ [] ∧ getFile w i img = (EncodeToString b, none) := by
  obtain ⟨hget, hne⟩ := (reachesUpload_iff w i img).mp h
  obtain ⟨b, hb, hg⟩ := encodedBytes_of_getFile w i img hget
  refine ⟨b, hb, ?_, hg⟩
  intro hnil
  apply hne
  rw [hg, hnil]
  rfl

/-- When the input was read in full, the bytes handed to the encoder are the
bytes that were fetched. -/
theorem fetchedBytes_of_readInFull (w : World) (i : Nat) (img : String)
    (h : readInFull w i img = true) : fetchedBytes w i img = encodedBytes w i img := by
  unfold readInFull at h
  unfold fetchedBytes encodedBytes
  by_cases hurl : isURL img = true
  · simp only [hurl, if_true]
  · simp only [hurl, Bool.false_or, Bool.not_eq_true] at h ⊢
    simp only [Bool.false_eq_true, if_false]
    cases hopen : w.openFile i img with
    | openFailed e => rfl
    | statFailed e => rfl
    | readFailed size e => rfl
    | read size data =>
      rw [hopen] at h
      have hle : size ≤ data.length := by simpa using h
      show some (data.take size) = some (fileBuffer size data)
      unfold fileBuffer
      rw [Nat.sub_eq_zero_of_le hle]
      simp

theorem getExt_eq (w : World) (b : List Byte) :
    getExt w b = if b = [] then "" else (w.extensionsByType (w.detectContentType b)).headD "" := by
  unfold getExt
  cases b with
  | nil => rfl
  | cons a rest =>
    simp only [List.length_cons, gt_iff_lt, Nat.zero_lt_succ, if_true]
    cases w.extensionsByType (w.detectContentType (a :: rest)) <;> simp

theorem callFor_of_reachesUpload (w : World) (i : Nat) (img : String)
    (h : reachesUpload w i img = true) :
    callFor w i img = some (UploadCall.mk "upload file"
      ((w.now i).Format ++ (Base img ++
        if Ext (Base img) = "" then getExt w (DecodeString (getFile w i img).1).bytes else ""))
      (getFile w i img).1) := by
  unfold callFor
  rw [if_pos h, remoteName_eq]

theorem foldl_skip {σ κ : Type} (p : κ → Bool) (step : σ → κ → σ) (ms : List κ)
    (h : ∀ kv ∈ ms, p kv = false) (acc : σ) :
    ms.foldl (fun acc kv => if p kv = true then step acc kv else acc) acc = acc := by
  induction ms generalizing acc with
  | nil => rfl
  | cons kv rest ih =>
    rw [List.foldl_cons, h kv (List.mem_cons_self _ _)]
    simp only [Bool.false_eq_true, if_false]
    exact ih (fun kv2 h2 => h kv2 (List.mem_cons_of_mem _ h2)) acc

theorem foldl_unique {σ κ : Type} (p : κ → Bool) (step : σ → κ → σ) (pre post : List κ)
    (x : κ) (hpre : ∀ kv ∈ pre, p kv = false) (hx : p x = true)
    (hpost : ∀ kv ∈ post, p kv = false) (acc : σ) :
    (pre ++ x :: post).foldl (fun acc kv => if p kv = true then step acc kv else acc) acc =
      step acc x := by
  rw [List.foldl_append, foldl_skip p step pre hpre, List.foldl_cons, if_pos hx,
    foldl_skip p step post hpost]

/-- An object without a member for `content` leaves the struct as it is. -/
theorem Unmarshal_absent (ms : List (String × Json)) (t : Response)
    (h : ∀ kv ∈ ms, matchesField kv.1 "content" = false) :
    Unmarshal (.object ms) t = (t, none) := by
  unfold Unmarshal
  exact foldl_skip (fun kv : String × Json => matchesField kv.1 "content")
    (fun acc kv => ({ Content := (unmarshalContent kv.2 acc.1.Content acc.2).1 },
      (unmarshalContent kv.2 acc.1.Content acc.2).2)) ms h (t, none)

/-- An object with one member for `content` decodes that member. -/
theorem Unmarshal_content (pre post : List (String × Json)) (key : String) (cv : Json)
    (t : Response) (hpre : ∀ kv ∈ pre, matchesField kv.1 "content" = false)
    (hkey : matchesField key "content" = true)
    (hpost : ∀ kv ∈ post, matchesField kv.1 "content" = false) :
    Unmarshal (.object (pre ++ (key, cv) :: post)) t =
      ({ Content := (unmarshalContent cv t.Content none).1 },
        (unmarshalContent cv t.Content none).2) := by
  unfold Unmarshal
  exact foldl_unique (fun kv : String × Json => matchesField kv.1 "content")
    (fun acc kv => ({ Content := (unmarshalContent kv.2 acc.1.Content acc.2).1 },
      (unmarshalContent kv.2 acc.1.Content acc.2).2)) pre post (key, cv) hpre hkey hpost (t, none)

theorem unmarshalContent_absent (ms : List (String × Json)) (cur : Content)
    (saved : Option String) (h : ∀ kv ∈ ms, matchesField kv.1 "download_url" = false) :
    unmarshalContent (.object ms) cur saved = (cur, saved) := by
  unfold unmarshalContent
  exact foldl_skip (fun kv : String × Json => matchesField kv.1 "download_url")
    (fun acc kv => ({ DownloadUrl := (unmarshalDownloadUrl kv.2 acc.1.DownloadUrl acc.2).1 },
      (unmarshalDownloadUrl kv.2 acc.1.DownloadUrl acc.2).2)) ms h (cur, saved)

theorem unmarshalContent_url (pre post : List (String × Json)) (key url : String)
    (cur : Content) (saved : Option String)
    (hpre : ∀ kv ∈ pre, matchesField kv.1 "download_url" = false)
    (hkey : matchesField key "download_url" = true)
    (hpost : ∀ kv ∈ post, matchesField kv.1 "download_url" = false) :
    unmarshalContent (.object (pre ++ (key, .string url) :: post)) cur saved =
      ({ DownloadUrl := url }, saved) := by
  unfold unmarshalContent
  exact foldl_unique (fun kv : String × Json => matchesField kv.1 "download_url")
    (fun acc kv => ({ DownloadUrl := (unmarshalDownloadUrl kv.2 acc.1.DownloadUrl acc.2).1 },
      (unmarshalDownloadUrl kv.2 acc.1.DownloadUrl acc.2).2)) pre post (key, .string url)
    hpre hkey hpost (cur, saved)

theorem upload_created_eq (w : World) (config : Config) (i : Nat)
    (message filename content url : String) (v : Json)
    (hreq : w.newRequest (apiUrl config filename) = .ok url)
    (hdo : w.httpDo i (putRequest config url message content) =
      .response 201 (.document v)) :
    upload w config i message filename content =
      if (Unmarshal v {}).2 ≠ none then ("", (Unmarshal v {}).2)
      else ((Unmarshal v {}).1.Content.DownloadUrl, (Unmarshal v {}).2) := by
  unfold upload
  rw [hreq]
  simp only [hdo]
  simp

theorem foldl_saved {σ κ : Type} (f : σ × Option String → κ → σ × Option String)
    (good : κ → Bool)
    (hf : ∀ acc kv, (f acc kv).2 = none ↔ acc.2 = none ∧ good kv = true) (ms : List κ) :
    ∀ acc, (ms.foldl f acc).2 = none ↔ acc.2 = none ∧ ms.all good = true := by
  induction ms with
  | nil =>
    intro acc
    simp
  | cons kv rest ih =>
    intro acc
    rw [List.foldl_cons, ih, hf, List.all_cons, Bool.and_eq_true, and_assoc]

theorem saveError_ne_none (saved : Option String) (e : String) : saveError saved e ≠ none := by
  cases saved <;> simp [saveError]

theorem unmarshalDownloadUrl_saved (v : Json) (cur : String) (saved : Option String) :
    (unmarshalDownloadUrl v cur saved).2 = none ↔ saved = none ∧ urlShape v = true := by
  cases v <;> simp [unmarshalDownloadUrl, urlShape, saveError_ne_none]

theorem unmarshalContent_saved (v : Json) (cur : Content) (saved : Option String) :
    (unmarshalContent v cur saved).2 = none ↔ saved = none ∧ contentShape v = true := by
  cases v with
  | object members =>
    simp only [unmarshalContent, contentShape]
    refine foldl_saved _ (fun kv => !matchesField kv.1 "download_url" || urlShape kv.2) ?_
      members (cur, saved)
    intro acc kv
    by_cases hm : matchesField kv.1 "download_url" = true
    · simp [hm, unmarshalDownloadUrl_saved]
    · simp [hm]
  | null => simp [unmarshalContent, contentShape]
  | bool b => simp [unmarshalContent, contentShape, saveError_ne_none]
  | number n => simp [unmarshalContent, contentShape, saveError_ne_none]
  | string str => simp [unmarshalContent, contentShape, saveError_ne_none]
  | array items => simp [unmarshalContent, contentShape, saveError_ne_none]

/-- The type errors of `json.Unmarshal` are exactly the departures from `responseShape`. -/
theorem Unmarshal_saved (v : Json) (t : Response) :
    (Unmarshal v t).2 = none ↔ responseShape v = true := by
  cases v with
  | object members =>
    simp only [Unmarshal, responseShape]
    have h := foldl_saved (fun (acc : Response × Option String) (kv : String × Json) =>
        if matchesField kv.1 "content" = true then
          (({ Content := (unmarshalContent kv.2 acc.1.Content acc.2).1 } : Response),
            (unmarshalContent kv.2 acc.1.Content acc.2).2)
        else acc)
      (fun kv => !matchesField kv.1 "content" || contentShape kv.2) ?_ members (t, none)
    · simpa using h
    · intro acc kv
      by_cases hm : matchesField kv.1 "content" = true
      · simp [hm, unmarshalContent_saved]
      · simp [hm]
  | null => simp [Unmarshal, responseShape]
  | bool b => simp [Unmarshal, responseShape]
  | number n => simp [Unmarshal, responseShape]
  | string str => simp [Unmarshal, responseShape]
  | array items => simp [Unmarshal, responseShape]

/-! ## The claims -/

/-- C1: for every non-empty list of inputs and every world, the result list
built by `processUpload` holds exactly the download URLs returned by `upload`
for the inputs whose fetch succeeded with non-empty content and whose upload
succeeded, one per such input and in the order of the inputs; an input whose
fetch fails, whose content is empty or whose upload fails contributes nothing,
and every input is fetched, so none of them stops the loop. -/
theorem processUpload_retList (w : World) (config : Config) (imgs : List String)
    (h : imgs ≠ []) :
    (processUpload w config imgs).retList =
        imgs.enum.filterMap (fun p => urlFor w config p.1 p.2) ∧
      (∀ i img, urlFor w config i img =
        if (getFile w i img).2 = none ∧ (getFile w i img).1 ≠ "" ∧
            (upload w config i "upload file" (remoteName w i img (getFile w i img).1)
              (getFile w i img).1).2 = none
        then some (upload w config i "upload file" (remoteName w i img (getFile w i img).1)
          (getFile w i img).1).1
        else none) ∧
      (processUpload w config imgs).fetched = imgs ∧
      (processUpload w config imgs).exit = none := by
  rw [processUpload_eq w config imgs h]
  refine ⟨rfl, ?_, rfl, rfl⟩
  intro i img
  unfold urlFor reachesUpload uploadOf
  by_cases h1 : (getFile w i img).2 = none <;> by_cases h2 : (getFile w i img).1 = "" <;>
    simp [h1, h2]

theorem processUpload_retList_witness :
    demoInputs ≠ [] ∧
      (processUpload demoWorld demoConfig demoInputs).retList = [demoDownloadUrl] ∧
      (processUpload demoWorld demoConfig demoInputs).retList =
        demoInputs.enum.filterMap (fun p => urlFor demoWorld demoConfig p.1 p.2) :=
  ⟨by decide, by decide,
    (processUpload_retList demoWorld demoConfig demoInputs (by decide)).1⟩

/-- C2: for every non-empty input list, what `processUpload` prints is the
diagnostics of the inputs followed by the summary: `Upload Success:` and the
newline-joined download URLs when at least one input succeeded, `none upload
success` otherwise.  In particular, for two inputs of which one fails to be
fetched (a URL answered with a status other than 200, such as 404, fails
with `download failed`) and the other is fetched and uploaded, the summary is
`Upload Success:` followed by the one download URL, in either order of the inputs. -/
theorem processUpload_summary (w : World) (config : Config) (imgs : List String)
    (h : imgs ≠ []) :
    (processUpload w config imgs).stdout =
        diagnosticsFrom w config 0 imgs ++
          (if imgs.enum.filterMap (fun p => urlFor w config p.1 p.2) ≠ [] then
            "Upload Success:\n" ++
              Join (imgs.enum.filterMap (fun p => urlFor w config p.1 p.2)) "\n"
          else "none upload success") ∧
      (∀ a b e u, imgs = [a, b] → (getFile w 0 a).2 = some e → urlFor w config 1 b = some u →
        (processUpload w config imgs).stdout =
          "Failed to get file: " ++ e ++ ("Upload Success:\n" ++ u)) ∧
      (∀ a b e u, imgs = [a, b] → urlFor w config 0 a = some u → (getFile w 1 b).2 = some e →
        (processUpload w config imgs).stdout =
          "Failed to get file: " ++ e ++ ("Upload Success:\n" ++ u)) ∧
      (∀ i url statusCode body, isURL url = true →
        w.httpGet i url = .response statusCode body → statusCode ≠ 200 →
        getFile w i url = ("", some ("download failed: " ++ url))) ∧
      (∀ a b u v, imgs = [a, b] → urlFor w config 0 a = some u → urlFor w config 1 b = some v →
        (processUpload w config imgs).stdout = "Upload Success:\n" ++ u ++ "\n" ++ v) ∧
      (∀ (urls : List String),
        (Join urls "\n").data = List.intercalate ['\n'] (urls.map String.data)) ∧
      (∀ u v rest, Join (u :: v :: rest) "\n" = u ++ "\n" ++ Join (v :: rest) "\n") ∧
      (∀ u, Join [u] "\n" = u) := by
  rw [processUpload_eq w config imgs h]
  refine ⟨rfl, ?_, ?_, ?_, ?_, fun urls => Join_data urls "\n", fun _ _ _ => rfl, fun _ => rfl⟩
  · intro a b e u himgs hfail hok
    subst himgs
    obtain ⟨hu, -, hd⟩ := urlFor_of_fetch_error w config 0 a e hfail
    have hd2 := diagnostic_of_urlFor w config 1 b u hok
    simp [diagnosticsFrom, expectedUrls, expectedUrlsFrom, List.enumFrom, hu, hok, hd, hd2,
      summary, Join]
  · intro a b e u himgs hok hfail
    subst himgs
    obtain ⟨hu, -, hd⟩ := urlFor_of_fetch_error w config 1 b e hfail
    have hd2 := diagnostic_of_urlFor w config 0 a u hok
    simp [diagnosticsFrom, expectedUrls, expectedUrlsFrom, List.enumFrom, hu, hok, hd, hd2,
      summary, Join]
  · intro i url statusCode body hurl hget hs
    exact getFile_bad_status w i url statusCode body hurl hget hs
  · intro a b u v himgs hoka hokb
    subst himgs
    have hda := diagnostic_of_urlFor w config 0 a u hoka
    have hdb := diagnostic_of_urlFor w config 1 b v hokb
    simp [diagnosticsFrom, expectedUrls, expectedUrlsFrom, List.enumFrom, hoka, hokb, hda, hdb,
      summary, Join, String.append_assoc]

theorem processUpload_summary_witness :
    ["https://example.com/missing.png", "shot"] ≠ [] ∧
      (getFile demoWorld 0 "https://example.com/missing.png").2 =
        some "download failed: https://example.com/missing.png" ∧
      urlFor demoWorld demoConfig 1 "shot" = some demoDownloadUrl ∧
      (processUpload demoWorld demoConfig ["https://example.com/missing.png", "shot"]).stdout =
        "Failed to get file: download failed: https://example.com/missing.png" ++
          ("Upload Success:\n" ++ demoDownloadUrl) ∧
      (processUpload acceptWorld demoConfig ["shot", "pics/logo.png"]).stdout =
        "Upload Success:\n" ++ "https://raw.example/20230405060708shot.png" ++ "\n" ++
          "https://raw.example/20230405060708logo.png" ∧
      (processUpload acceptWorld demoConfig ["shot", "pics/logo.png", "shot"]).stdout =
        "Upload Success:\nhttps://raw.example/20230405060708shot.png\n" ++
          "https://raw.example/20230405060708logo.png\n" ++
          "https://raw.example/20230405060708shot.png" :=
  ⟨by decide, by decide, by decide,
    (processUpload_summary demoWorld demoConfig ["https://example.com/missing.png", "shot"]
      (by decide)).2.1 _ _ _ _ rfl (by decide) (by decide),
    (processUpload_summary acceptWorld demoConfig ["shot", "pics/logo.png"]
      (by decide)).2.2.2.2.1 _ _ _ _ rfl (by decide) (by decide),
    by decide⟩

/-- C3: given an empty list of file arguments, `processUpload` prints
`no image url detected`, exits with status 1, calls neither `getFile` nor
`upload` (so no network call is made) and prints no summary. -/
theorem processUpload_nil (w : World) (config : Config) :
    processUpload w config [] =
      { stdout := "no image url detected\n"
        exit := some 1
        retList := []
        fetched := []
        uploaded := [] } :=
  rfl

/-- C4: whenever the response to the PUT has a status other than 201,
`upload` returns an empty URL and the error `ret code error: <status>`,
whatever the body is; in the driver the file is then skipped: nothing is
added to the result list for it and the loop goes on with the remaining inputs. -/
theorem upload_status_not_created (w : World) (config : Config) (i : Nat)
    (message filename content url : String) (statusCode : Nat) (body : Body)
    (hreq : w.newRequest (apiUrl config filename) = .ok url)
    (hdo : w.httpDo i (putRequest config url message content) = .response statusCode body)
    (hs : statusCode ≠ 201) :
    upload w config i message filename content =
        ("", some ("ret code error: " ++ toString statusCode)) ∧
      ∀ (img : String) (rest : List String) (st : Run),
        (getFile w i img).2 = none → (getFile w i img).1 ≠ "" →
        message = "upload file" → filename = remoteName w i img (getFile w i img).1 →
        content = (getFile w i img).1 →
        (loopBody w config i img st).retList = st.retList ∧
          loop w config i (img :: rest) st = loop w config (i + 1) rest
            { stdout := st.stdout ++ "Failed to upload: <nil>"
              exit := st.exit
              retList := st.retList
              fetched := st.fetched ++ [img]
              uploaded := st.uploaded ++ [UploadCall.mk "upload file" filename content] } ∧
          (loop w config i (img :: rest) st).retList =
            st.retList ++ expectedUrlsFrom w config (i + 1) rest ∧
          (loop w config i (img :: rest) st).fetched = st.fetched ++ img :: rest := by
  have hup :=
    upload_bad_status w config i message filename content url statusCode body hreq hdo hs
  refine ⟨hup, ?_⟩
  intro img rest st hget hne hm hf hc
  subst hm hf hc
  have hfail : (upload w config i "upload file" (remoteName w i img (getFile w i img).1)
      (getFile w i img).1).2 ≠ none := by
    rw [hup]
    simp
  have hbody := loopBody_upload_failed w config i img st hget hne hfail
  refine ⟨by rw [hbody], by rw [loop, hbody], ?_, ?_⟩
  · rw [loop, hbody, loop_eq]
  · rw [loop, hbody, loop_eq]
    simp

theorem upload_status_not_created_witness :
    upload demoWorld demoConfig 3 "upload file" "20230405060708logo.png" "iVBORw0KGgo=" =
        ("", some ("ret code error: " ++ toString 500)) ∧
      (loop demoWorld demoConfig 3 ["pics/logo.png", "shot"] {}).retList = [demoDownloadUrl] :=
  ⟨(upload_status_not_created demoWorld demoConfig 3 "upload file" "20230405060708logo.png"
      "iVBORw0KGgo=" (demoApiUrl "20230405060708logo.png")
      500 (.document (.object [("message", .string "Server Error")]))
      rfl rfl (by decide)).1,
    by decide⟩

/-- C10: for every input whose upload fails, the diagnostic printed by
`processUpload` is formatted from the error variable of the fetch step,
which is `nil` at that point: the text is `Failed to upload: <nil>`
whatever error `upload` returned, and nothing is added to the result list. -/
theorem upload_failure_diagnostic (w : World) (config : Config) (i : Nat) (img : String)
    (st : Run) (e : String)
    (hget : (getFile w i img).2 = none) (hne : (getFile w i img).1 ≠ "")
    (hfail : (upload w config i "upload file" (remoteName w i img (getFile w i img).1)
      (getFile w i img).1).2 = some e) :
    (loopBody w config i img st).stdout =
        st.stdout ++ ("Failed to upload: " ++ fmtError (getFile w i img).2) ∧
      (loopBody w config i img st).stdout = st.stdout ++ "Failed to upload: <nil>" ∧
      (loopBody w config i img st).retList = st.retList := by
  have hfail2 : (upload w config i "upload file" (remoteName w i img (getFile w i img).1)
      (getFile w i img).1).2 ≠ none := by
    rw [hfail]
    simp
  rw [loopBody_upload_failed w config i img st hget hne hfail2, hget]
  exact ⟨rfl, rfl, rfl⟩

theorem upload_failure_diagnostic_witness :
    (upload demoWorld demoConfig 3 "upload file"
        (remoteName demoWorld 3 "pics/logo.png" (getFile demoWorld 3 "pics/logo.png").1)
        (getFile demoWorld 3 "pics/logo.png").1).2 = some "ret code error: 500" ∧
      (loopBody demoWorld demoConfig 3 "pics/logo.png" {}).stdout =
        ({} : Run).stdout ++ "Failed to upload: <nil>" :=
  ⟨by decide,
    (upload_failure_diagnostic demoWorld demoConfig 3 "pics/logo.png" {} "ret code error: 500"
      (by decide) (by decide) (by decide)).2.1⟩

/-- C5: in every run, an input that reaches the upload step is uploaded
under a name that begins with the 14 decimal digits `YYYYMMDDHHMMSS` of the
current time (the clock showing a year of at most four digits), immediately
followed by the base name of the input, followed by the inferred extension
when the base name has none and by nothing otherwise; the calls of `upload`
are those of the inputs that reach the upload step, in order. -/
theorem remote_filename_stamp (w : World) (config : Config) (imgs : List String) (i : Nat)
    (img : String) (hin : imgs[i]? = some img) (hreach : reachesUpload w i img = true)
    (hclock : (w.now i).civil) :
    UploadCall.mk "upload file"
        (stamp14 (w.now i) ++ (Base img ++
          if Ext (Base img) = "" then getExt w (DecodeString (getFile w i img).1).bytes else ""))
        (getFile w i img).1 ∈ (processUpload w config imgs).uploaded ∧
      callFor w i img = some (UploadCall.mk "upload file"
        (stamp14 (w.now i) ++ (Base img ++
          if Ext (Base img) = "" then getExt w (DecodeString (getFile w i img).1).bytes else ""))
        (getFile w i img).1) ∧
      (stamp14 (w.now i)).length = 14 ∧
      (∀ c ∈ (stamp14 (w.now i)).data, c.isDigit = true) ∧
      stamp14 (w.now i) = (w.now i).Format ∧
      (processUpload w config imgs).uploaded =
        imgs.enum.filterMap (fun p => callFor w p.1 p.2) := by
  have hne : imgs ≠ [] := by
    intro h
    rw [h] at hin
    simp at hin
  refine ⟨?_, ?_, stamp14_length _, stamp14_digits _, (Format_eq_stamp14 _ hclock).symm, ?_⟩
  · rw [← Format_eq_stamp14 _ hclock]
    exact mem_uploaded w config imgs i img _ hin (callFor_of_reachesUpload w i img hreach)
  · rw [← Format_eq_stamp14 _ hclock]
    exact callFor_of_reachesUpload w i img hreach
  · rw [processUpload_eq w config imgs hne]
    rfl

theorem remote_filename_stamp_witness :
    UploadCall.mk "upload file" ("20230405060708" ++ ("shot" ++ ".png")) "iVBORw0KGgo=" ∈
      (processUpload demoWorld demoConfig demoInputs).uploaded :=
  (remote_filename_stamp demoWorld demoConfig demoInputs 1 "shot" (by decide) (by decide)
    (by decide)).1

/-- C6, counterexample: the file `note` has no extension; its size is reported
as 8 and the read delivers the 3 bytes of `65\n`.  The bytes decoded in the
loop are the 8 bytes of the buffer, not the 3 bytes that were fetched, and
the file is uploaded as `note.bin` although `getExt` of the fetched bytes is `.txt`. -/
theorem remote_filename_short_read :
    reachesUpload shortReadWorld 0 "note" = true ∧
      fetchedBytes shortReadWorld 0 "note" = some noteBytes ∧
      (DecodeString (getFile shortReadWorld 0 "note").1).bytes = [54, 53, 10, 0, 0, 0, 0, 0] ∧
      getExt shortReadWorld noteBytes = ".txt" ∧
      (processUpload shortReadWorld demoConfig ["note"]).uploaded =
        [UploadCall.mk "upload file" "20230405060708note.bin" "NjUKAAAAAAA="] := by
  decide

/-- C6, amended: in every run, for an input that reaches the upload step the
bytes decoded from the base64 content are the bytes that `getFile` encoded;
they are the bytes that were fetched when the input was read in full (a URL,
or a local file whose read filled the buffer).  When the base name has an
extension, the name uploaded is the time stamp followed by the base name,
unchanged; when it has none, `getExt` of the decoded bytes is appended, that
is the first extension the MIME table lists for the type the sniffer reports
for them, or nothing when it lists none: `.png` when the type is `image/png`
and the table lists `.png` first. -/
theorem remote_filename_extension (w : World) (config : Config) (imgs : List String) (i : Nat)
    (img : String) (hin : imgs[i]? = some img) (hreach : reachesUpload w i img = true) :
    ∃ b, b ≠ [] ∧ (getFile w i img).1 = EncodeToString b ∧
      DecodeString (getFile w i img).1 = ⟨b, none⟩ ∧
      (readInFull w i img = true → fetchedBytes w i img = some b) ∧
      (Ext (Base img) ≠ "" →
        UploadCall.mk "upload file" ((w.now i).Format ++ Base img) (EncodeToString b) ∈
          (processUpload w config imgs).uploaded) ∧
      (Ext (Base img) = "" →
        UploadCall.mk "upload file" ((w.now i).Format ++ (Base img ++ getExt w b))
          (EncodeToString b) ∈ (processUpload w config imgs).uploaded) ∧
      getExt w b = (w.extensionsByType (w.detectContentType b)).headD "" ∧
      (∀ c : List Byte, getExt w c =
        if c = [] then "" else (w.extensionsByType (w.detectContentType c)).headD "") ∧
      (∀ more, w.detectContentType b = "image/png" →
        w.extensionsByType "image/png" = ".png" :: more → getExt w b = ".png") := by
  obtain ⟨b, hb, hbne, hg⟩ := encodedBytes_of_reachesUpload w i img hreach
  have hmem := mem_uploaded w config imgs i img _ hin (callFor_of_reachesUpload w i img hreach)
  rw [hg] at hmem
  simp only [DecodeString_EncodeToString] at hmem
  have hext_eq : getExt w b = (w.extensionsByType (w.detectContentType b)).headD "" := by
    rw [getExt_eq, if_neg hbne]
  refine ⟨b, hbne, by rw [hg], by rw [hg]; exact DecodeString_EncodeToString b, ?_, ?_, ?_,
    hext_eq, getExt_eq w, ?_⟩
  · intro hfull
    rw [fetchedBytes_of_readInFull w i img hfull, hb]
  · intro hext
    rw [if_neg hext, String.append_empty] at hmem
    exact hmem
  · intro hext
    rw [if_pos hext] at hmem
    exact hmem
  · intro more hdetect hexts
    rw [hext_eq, hdetect, hexts]
    rfl

theorem remote_filename_extension_witness :
    UploadCall.mk "upload file" ("20230405060708" ++ ("shot" ++ ".png")) "iVBORw0KGgo=" ∈
        (processUpload demoWorld demoConfig demoInputs).uploaded ∧
      UploadCall.mk "upload file" ("20230405060708" ++ "logo.png") "iVBORw0KGgo=" ∈
        (processUpload demoWorld demoConfig demoInputs).uploaded ∧
      fetchedBytes demoWorld 1 "shot" = some pngSignature := by
  obtain ⟨b, -, -, -, hb, -, hnone, -, -, hpng⟩ :=
    remote_filename_extension demoWorld demoConfig demoInputs 1 "shot" (by decide) (by decide)
  obtain ⟨c, -, -, -, hc, hsome, -, -, -, -⟩ :=
    remote_filename_extension demoWorld demoConfig demoInputs 3 "pics/logo.png" (by decide)
      (by decide)
  have hb1 := hb (by decide)
  have hc1 := hc (by decide)
  have hb2 : fetchedBytes demoWorld 1 "shot" = some pngSignature := by decide
  have hc2 : fetchedBytes demoWorld 3 "pics/logo.png" = some pngSignature := by decide
  rw [hb2] at hb1
  rw [hc2] at hc1
  obtain rfl := Option.some.inj hb1
  obtain rfl := Option.some.inj hc1
  have hext : getExt demoWorld pngSignature = ".png" := hpng [] (by decide) (by decide)
  rw [hext] at hnone
  exact ⟨hnone (by decide), hsome (by decide), hb2⟩

/-- C7, the code at a short read: `fileInfo.Size()` is 8 and the one call of
`file.Read` delivers the 3 bytes `65\n` with no error.  `getFile` returns
`NjUKAAAAAAA=`, the encoding of the 8-byte buffer; it decodes to the 3 bytes
followed by 5 zero bytes, whereas the encoding of the file's bytes is `NjUK`,
which is what `getFile` returns for a URL with the same 3 bytes as its body. -/
theorem getFile_short_read :
    isURL "note" = false ∧
      (getFile shortReadWorld 0 "note") = ("NjUKAAAAAAA=", none) ∧
      DecodeString "NjUKAAAAAAA=" = ⟨[54, 53, 10, 0, 0, 0, 0, 0], none⟩ ∧
      EncodeToString noteBytes = "NjUK" ∧
      DecodeString (getFile shortReadWorld 0 "note").1 ≠ ⟨noteBytes, none⟩ ∧
      getFile shortReadWorld 0 "https://example.com/note" = ("NjUK", none) := by
  decide

/-- The local branch of `getFile` encodes the buffer `fileBytes`, which holds
the bytes of the file when the read filled it; decoding gives the buffer
back, for every byte sequence of every length. -/
theorem getFile_local_buffer (w : World) (i : Nat) (filePath : String) (size : Nat)
    (data : List Byte) (hlocal : isURL filePath = false)
    (hread : w.openFile i filePath = .read size data) :
    getFile w i filePath = (EncodeToString (fileBuffer size data), none) ∧
      DecodeString (getFile w i filePath).1 = ⟨fileBuffer size data, none⟩ ∧
      (data.length = size → fileBuffer size data = data) ∧
      (∀ b : List Byte, DecodeString (EncodeToString b) = ⟨b, none⟩) ∧
      (∀ b : List Byte, (EncodeToString b).length = 4 * ((b.length + 2) / 3)) := by
  have hg : getFile w i filePath = (EncodeToString (fileBuffer size data), none) := by
    unfold getFile
    simp [hlocal, hread]
  refine ⟨hg, by rw [hg]; exact DecodeString_EncodeToString _, ?_,
    DecodeString_EncodeToString, Encode_length⟩
  intro hlen
  unfold fileBuffer
  rw [← hlen]
  simp

/-- C8, counterexample: with the repository `owner/projectName/` and the
directory `/image/2023` the URL string of `upload` is
`.../repos/owner/projectName/contents/image/2023/a.png`, not the string made
of the two values as they stand in the configuration; a GitHub that answers
201 only at the trimmed URL accepts the upload. -/
theorem apiUrl_not_verbatim :
    apiUrl slashConfig "a.png" =
        "https://api.github.com/repos/owner/projectName/contents/image/2023/a.png" ∧
      "https://api.github.com/repos/" ++ slashConfig.Repo ++ "/contents/" ++ slashConfig.Path ++
          "/" ++ "a.png" =
        "https://api.github.com/repos/owner/projectName//contents//image/2023/a.png" ∧
      apiUrl slashConfig "a.png" ≠
        "https://api.github.com/repos/" ++ slashConfig.Repo ++ "/contents/" ++ slashConfig.Path ++
          "/" ++ "a.png" ∧
      upload demoWorld slashConfig 0 "upload file" "20230405060708shot.png" "iVBORw0KGgo=" =
        (demoDownloadUrl, none) := by
  decide

/-- C8, amended: for every configuration and every file name, the URL string
that `upload` builds and hands to `http.NewRequest` for its PUT is
`https://api.github.com/repos/{repo}/contents/{path}/{filename}`, where
`{repo}` and `{path}` are the values of the configuration without the slashes
at their two ends (used as they stand when they have none there).  When
`http.NewRequest` rejects the string, `upload` returns that error whatever
the network would answer; otherwise the request is a PUT that carries the URL
parsed from the string, and the answer of `upload` depends on the world only
through the answer to that request. -/
theorem upload_put_url (config : Config) (message filename content : String) :
    apiUrl config filename =
        "https://api.github.com/repos/" ++ Trim config.Repo "/" ++ "/contents/" ++
          Trim config.Path "/" ++ "/" ++ filename ∧
      (∀ s : String, ∃ pre post : List Char, s.data = pre ++ (Trim s "/").data ++ post ∧
        (∀ c ∈ pre, c = '/') ∧ (∀ c ∈ post, c = '/') ∧
        (Trim s "/").data.head? ≠ some '/' ∧ (Trim s "/").data.getLast? ≠ some '/') ∧
      (config.Repo.data.head? ≠ some '/' → config.Repo.data.getLast? ≠ some '/' →
        config.Path.data.head? ≠ some '/' → config.Path.data.getLast? ≠ some '/' →
        apiUrl config filename =
          "https://api.github.com/repos/" ++ config.Repo ++ "/contents/" ++ config.Path ++
            "/" ++ filename) ∧
      (∀ (w : World) (i : Nat) (e : String),
        w.newRequest (apiUrl config filename) = .error e →
        upload w config i message filename content = ("", some e)) ∧
      (∀ (w w2 : World) (i : Nat) (url : String),
        w.newRequest (apiUrl config filename) = .ok url →
        w2.newRequest (apiUrl config filename) = .ok url →
        w.httpDo i (putRequest config url message content) =
          w2.httpDo i (putRequest config url message content) →
        upload w config i message filename content =
          upload w2 config i message filename content) ∧
      (∀ url, (putRequest config url message content).method = "PUT" ∧
        (putRequest config url message content).url = url) := by
  refine ⟨rfl, Trim_slash_spec, ?_, ?_, ?_, fun _ => ⟨rfl, rfl⟩⟩
  · intro h1 h2 h3 h4
    unfold apiUrl
    rw [Trim_slash_self _ h1 h2, Trim_slash_self _ h3 h4]
  · intro w i e he
    unfold upload
    rw [he]
  · intro w w2 i url hw hw2 hdo
    unfold upload
    rw [hw, hw2]
    simp only [hdo]

theorem upload_put_url_witness :
    apiUrl demoConfig "20230405060708shot.png" =
        "https://api.github.com/repos/" ++ "owner/projectName" ++ "/contents/" ++ "image/2023" ++
          "/" ++ "20230405060708shot.png" ∧
      upload rejectingWorld demoConfig 0 "upload file" "100%.png" "iVBORw0KGgo=" =
        ("", some "invalid URL escape") :=
  ⟨(upload_put_url demoConfig "upload file" "20230405060708shot.png" "iVBORw0KGgo=").2.2.1
      (by decide) (by decide) (by decide) (by decide),
    (upload_put_url demoConfig "upload file" "100%.png" "iVBORw0KGgo=").2.2.2.1
      rejectingWorld 0 "invalid URL escape" rfl⟩

/-- C9, counterexample: GitHub answers with status 201 and the valid JSON
document `[]`; `upload` returns an error, and the run reports no success. -/
theorem upload_created_array_body :
    arrayWorld.httpDo 0
        (putRequest demoConfig (demoApiUrl "20230405060708shot.png") "upload file"
          "iVBORw0KGgo=") =
        .response 201 (.document (.array [])) ∧
      upload arrayWorld demoConfig 0 "upload file" "20230405060708shot.png" "iVBORw0KGgo=" =
        ("", some "json: cannot unmarshal array into Go value of type main.Response") ∧
      (upload arrayWorld demoConfig 0 "upload file" "20230405060708shot.png"
        "iVBORw0KGgo=").2 ≠ none ∧
      (processUpload arrayWorld demoConfig ["shot"]).retList = [] ∧
      (processUpload arrayWorld demoConfig ["shot"]).stdout =
        "Failed to upload: <nil>none upload success" :=
  ⟨rfl, by decide, by decide, by decide, by decide⟩

/-- C9, amended: for a response with status 201 whose body is a JSON
document that `json.Unmarshal` decodes into `Response` without a type error,
`upload` returns the decoded `content.download_url` with no error: the
string of the member when the document has one `content` object with one
`download_url` string, the empty string when the document has no `content`
member or its `content` object has no `download_url` member.  A document
that does not decode makes `upload` return the error.  The driver takes an
empty URL for a success: it appends the empty string to the result list, and
a run on that single input prints `Upload Success:` and an empty line. -/
theorem upload_created (w : World) (config : Config) (i : Nat)
    (message filename content url : String) (v : Json)
    (hreq : w.newRequest (apiUrl config filename) = .ok url)
    (hdo : w.httpDo i (putRequest config url message content) =
      .response 201 (.document v)) :
    (responseShape v = true →
        upload w config i message filename content =
          ((Unmarshal v {}).1.Content.DownloadUrl, none)) ∧
      (responseShape v = false →
        ∃ e, upload w config i message filename content = ("", some e)) ∧
      (∀ pre key post pre2 key2 url post2,
        v = .object (pre ++ (key, .object (pre2 ++ (key2, .string url) :: post2)) :: post) →
        (∀ kv ∈ pre, matchesField kv.1 "content" = false) →
        matchesField key "content" = true →
        (∀ kv ∈ post, matchesField kv.1 "content" = false) →
        (∀ kv ∈ pre2, matchesField kv.1 "download_url" = false) →
        matchesField key2 "download_url" = true →
        (∀ kv ∈ post2, matchesField kv.1 "download_url" = false) →
        upload w config i message filename content = (url, none)) ∧
      (∀ members, v = .object members →
        (∀ kv ∈ members, matchesField kv.1 "content" = false) →
        upload w config i message filename content = ("", none)) ∧
      (∀ pre key inner post, v = .object (pre ++ (key, .object inner) :: post) →
        (∀ kv ∈ pre, matchesField kv.1 "content" = false) →
        matchesField key "content" = true →
        (∀ kv ∈ post, matchesField kv.1 "content" = false) →
        (∀ kv ∈ inner, matchesField kv.1 "download_url" = false) →
        upload w config i message filename content = ("", none)) ∧
      (∀ (img : String) (st : Run),
        (getFile w i img).2 = none → (getFile w i img).1 ≠ "" →
        message = "upload file" → filename = remoteName w i img (getFile w i img).1 →
        content = (getFile w i img).1 →
        upload w config i message filename content = ("", none) →
        (loopBody w config i img st).retList = st.retList ++ [""] ∧
          (i = 0 → (processUpload w config [img]).retList = [""] ∧
            (processUpload w config [img]).stdout = "Upload Success:\n")) := by
  have hup := upload_created_eq w config i message filename content url v hreq hdo
  refine ⟨?_, ?_, ?_, ?_, ?_, ?_⟩
  · intro hshape
    rw [hup, (Unmarshal_saved v {}).mpr hshape]
    simp
  · intro hshape
    cases he : (Unmarshal v {}).2 with
    | none =>
      rw [(Unmarshal_saved v {}).mp he] at hshape
      cases hshape
    | some e =>
      refine ⟨e, ?_⟩
      rw [hup, he]
      simp
  · intro pre key post pre2 key2 url post2 hv hpre hkey hpost hpre2 hkey2 hpost2
    subst hv
    rw [hup, Unmarshal_content pre post key _ _ hpre hkey hpost,
      unmarshalContent_url pre2 post2 key2 url _ _ hpre2 hkey2 hpost2]
    simp
  · intro members hv hnone
    subst hv
    rw [hup, Unmarshal_absent members _ hnone]
    simp
  · intro pre key inner post hv hpre hkey hpost hinner
    subst hv
    rw [hup, Unmarshal_content pre post key _ _ hpre hkey hpost,
      unmarshalContent_absent inner _ _ hinner]
    simp
  · intro img st hget hne hm hf hc hempty
    subst hm hf hc
    have hok : (upload w config i "upload file" (remoteName w i img (getFile w i img).1)
        (getFile w i img).1).2 = none := by
      rw [hempty]
    have hbody := loopBody_upload_ok w config i img st hget hne hok
    rw [hempty] at hbody
    refine ⟨by rw [hbody], ?_⟩
    intro hi
    subst hi
    have hbody0 := loopBody_upload_ok w config 0 img {} hget hne hok
    rw [hempty] at hbody0
    have hrun : processUpload w config [img] =
        { stdout := "Upload Success:\n", exit := none, retList := [""], fetched := [img],
          uploaded := [UploadCall.mk "upload file" (remoteName w 0 img (getFile w 0 img).1)
            (getFile w 0 img).1] } := by
      unfold processUpload
      simp only [List.length_singleton, one_ne_zero, if_false, loop, hbody0]
      rfl
    rw [hrun]
    exact ⟨rfl, rfl⟩

theorem upload_created_witness :
    upload bareWorld demoConfig 0 "upload file" "20230405060708shot.png" "iVBORw0KGgo=" =
        ("", none) ∧
      (processUpload bareWorld demoConfig ["shot"]).retList = [""] ∧
      (processUpload bareWorld demoConfig ["shot"]).stdout = "Upload Success:\n" :=
  have h := upload_created bareWorld demoConfig 0 "upload file" "20230405060708shot.png"
    "iVBORw0KGgo=" (demoApiUrl "20230405060708shot.png")
    (.object [("content", .object [("name", .string "shot.png")])]) rfl rfl
  have hup := h.2.2.2.2.1 [] "content" [("name", .string "shot.png")] [] rfl
    (by decide) (by decide) (by decide) (by decide)
  ⟨hup, h.2.2.2.2.2 "shot" {} (by decide) (by decide) rfl (by decide) (by decide) hup |>.2 rfl⟩

end GithubImageUploader
